import Mathlib

/-!
Verification of the incremental Merkle accumulator and proof-bridge layer of
the ZKP e-voting client (src/unnamed/part_004, src/unnamed/part_006,
src/client/src/utils/circyomWrapper.js, src/client/src/utils/zkProofs.js).

The MiMC sponge permutation (`mimc.hash(xL, xR, 0)` from circomlibjs) is an
external primitive, treated as a black box by the repository and by its spec;
it is modelled here as an abstract function `Perm` on pairs of field
representatives.  JavaScript BigInt values are modelled as `Nat`; the field
conversion `mimc.F.e` reduces its argument modulo the prime `P`, and
`mimc.F.add` adds modulo `P`.  All definitions below are transcribed from the
source files; deviations (such as totalising functions whose only JS failure
mode is an uninitialised tree) are noted in the doc comments.
-/

deriving instance DecidableEq for Except

namespace ZkVoting

/-- Prime modulus of the BN254 scalar field used by `mimc.F` (the constant
`FIELD_SIZE`; it also appears literally in `generateRandomFieldElement`). -/
def P : Nat := 21888242871839275222246405745257275088548364400416034343698204186575808495617

/-- The constant `ZERO_VALUE` from src/unnamed/part_004 line 5
(`keccak256("tornado") % FIELD_SIZE`), the seed of the zero ladder. -/
def ZERO_VALUE : Nat := 21663839004416932945382355908790599225266501822907911457504978515578255421292

/-- Abstract model of the external MiMC sponge permutation: given the pair
`(xL, xR)` of state words (the round-constant index is always 0 in this code),
it returns the permuted pair `(xL, xR)`. -/
def Perm : Type := Nat → Nat → Nat × Nat

/-- A trivial concrete instantiation of the abstract permutation, used to
evaluate the tree algorithms on concrete inputs. -/
def permId : Perm := fun r c => (r, c)

/-- Model of `calculateHash` (src/unnamed/part_004 lines 31-51, identical in
src/client/src/utils/circyomWrapper.js lines 41-68 and zkProofs.js lines
54-81): `R ← F.e(left)`, `C ← F.e(0)`, first sponge call, `R ← R + F.e(right)`,
second sponge call, return the `xL` word.  `mimc.F.e` reduces modulo `P`;
there is no range check of any kind in the source. -/
def calculateHash (mimc : Perm) (left right : Nat) : Nat :=
  let R := left % P
  let C := 0
  let r1 := mimc R C
  let R2 := (r1.1 + right % P) % P
  let r2 := mimc R2 r1.2
  r2.1

/-- The two-step sponge hash exactly as worded in spec §4.1 (steps 1-5):
initialise `(R, C) = (left, 0)`, permute, add `right` into `R` modulo `P`,
permute again, and return the resulting `R` component.  This definition
follows the SPEC's words and is compared with `calculateHash` (from the
source) in the refinement theorem for C5. -/
def hash2Spec (permute : Perm) (left right : Nat) : Nat :=
  let s1 := permute left 0
  let s2 := permute ((s1.1 + right) % P) s1.2
  s2.1

/-- The zero ladder: `zeros[0] = ZERO_VALUE`,
`zeros[i] = calculateHash(zeros[i-1], zeros[i-1])` (src/unnamed/part_004
lines 56-66, loop body). -/
def zeroAt (mimc : Perm) : Nat → Nat
  | 0 => ZERO_VALUE
  | i + 1 => calculateHash mimc (zeroAt mimc i) (zeroAt mimc i)

/-- Model of `generateZeros(mimc, levels)` (src/unnamed/part_004 lines 56-66):
the array `[zeros[0], ..., zeros[levels]]`. -/
def generateZeros (mimc : Perm) (levels : Nat) : List Nat :=
  (List.range (levels + 1)).map (zeroAt mimc)

/-- Model of JavaScript `Array.prototype.findIndex` specialised to the
equality predicates used in the source (`-1` becomes `none`). -/
def findIndex (p : Nat → Bool) : List Nat → Option Nat
  | [] => none
  | a :: l => if p a then some 0 else (findIndex p l).map (· + 1)

/-- Result record of `calculateMerkleRootAndPath`:
`{root, pathElements, pathIndices}`. -/
structure PathResult where
  root : Nat
  pathElements : List Nat
  pathIndices : List Nat
deriving DecidableEq

/-- Layer `level` of the from-scratch layer computation inside
`calculateMerkleRootAndPath` (src/unnamed/part_004 lines 79-88): layer 0 is
the element list, and layer `level+1` pairs up layer `level`, padding a
missing right sibling with `zeros[level]`.  `Math.ceil(len / 2)` is
`(len + 1) / 2`. -/
def nextLayer (mimc : Perm) (zprev : Nat) (layer : List Nat) : List Nat :=
  (List.range ((layer.length + 1) / 2)).map fun i =>
    calculateHash mimc (layer.getD (2 * i) 0)
      (if 2 * i + 1 < layer.length then layer.getD (2 * i + 1) 0 else zprev)

/-- Iterated layer computation: `layersUpTo mimc elements level` is
`layers[level]` of the source. -/
def layersUpTo (mimc : Perm) (elements : List Nat) : Nat → List Nat
  | 0 => elements
  | l + 1 => nextLayer mimc (zeroAt mimc l) (layersUpTo mimc elements l)

/-- Path-collection loop of `calculateMerkleRootAndPath` (src/unnamed/part_004
lines 99-103): at each level record `index % 2` and the sibling
`layers[level][index ^ 1]` (or `zeros[level]` when out of range), then halve
the index.  Returns `(pathElements, pathIndices)`. -/
def pathGo (mimc : Perm) (elements : List Nat) : Nat → Nat → Nat → List Nat × List Nat
  | 0, _, _ => ([], [])
  | fuel + 1, level, idx =>
    let layer := layersUpTo mimc elements level
    let pe := if idx ^^^ 1 < layer.length then layer.getD (idx ^^^ 1) 0 else zeroAt mimc level
    let rest := pathGo mimc elements fuel (level + 1) (idx / 2)
    (pe :: rest.1, (idx % 2) :: rest.2)

/-- Model of `calculateMerkleRootAndPath(mimc, levels, elements, element)`
(src/unnamed/part_004 lines 71-111, identical in src/unnamed/part_006 lines
56-96).  Throws "Tree is full" when `elements.length > 2 ** levels`; the JS
guard `if (element)` is falsy both for `null` (modelled by `none`) and for
`BigInt(0)`, in which cases the path lists stay empty; an element that is
truthy but absent throws "Element not found in tree". -/
def calculateMerkleRootAndPath (mimc : Perm) (levels : Nat) (elements : List Nat)
    (element : Option Nat) : Except String PathResult :=
  if elements.length > 2 ^ levels then .error "Tree is full"
  else
    let top := layersUpTo mimc elements levels
    let root := if 0 < top.length then top.getD 0 0 else zeroAt mimc levels
    match element with
    | none => .ok ⟨root, [], []⟩
    | some e =>
      if e = 0 then .ok ⟨root, [], []⟩
      else
        match findIndex (· == e) elements with
        | none => .error "Element not found in tree"
        | some idx =>
          let path := pathGo mimc elements levels 0 idx
          .ok ⟨root, path.1, path.2⟩

/-- State of the `MerkleTree` class (src/unnamed/part_004 lines 116-235) after
`initialize()` has succeeded: the `mimcHash` member is the abstract `Perm`
passed separately, and `initialized` is true by construction. -/
structure MerkleTree where
  levels : Nat
  leaves : List Nat
  zeros : List Nat
  filledSubTrees : List Nat
  root : Nat
deriving DecidableEq

/-- Model of constructing a `MerkleTree(levels)` and running `initialize()`
(src/unnamed/part_004 lines 117-155): `zeros = generateZeros(mimc, levels)`,
`filledSubTrees = [...zeros]`, `root = zeros[levels]`, no leaves. -/
def MerkleTree.init (mimc : Perm) (levels : Nat) : MerkleTree :=
  let zs := generateZeros mimc levels
  ⟨levels, [], zs, zs, zs.getD levels 0⟩

/-- The per-level update loop of `MerkleTree.insert` (src/unnamed/part_004
lines 175-201), transcribed branch for branch.  `n` is `this.leaves.length`
AFTER the push; `i` is the level, `idx` the current node index, `cur` the
current hash, `filled` the `filledSubTrees` array.  Returns the final hash
(the new root) and the updated `filledSubTrees`. -/
def insertGo (mimc : Perm) (zeros : List Nat) (n : Nat) :
    Nat → Nat → Nat → Nat → List Nat → Nat × List Nat
  | 0, _, _, cur, filled => (cur, filled)
  | fuel + 1, i, idx, cur, filled =>
    let isLeft := idx % 2 == 0
    let siblingIndex := if isLeft then idx + 1 else idx - 1
    let sf : Nat × List Nat :=
      if isLeft && (siblingIndex == n) then
        (zeros.getD i 0, filled)
      else if siblingIndex < n then
        if isLeft then (zeros.getD i 0, filled.set i cur)
        else (filled.getD i 0, filled)
      else
        (zeros.getD i 0, filled)
    let cur' := if isLeft then calculateHash mimc cur sf.1 else calculateHash mimc sf.1 cur
    insertGo mimc zeros n fuel (i + 1) (idx / 2) cur' sf.2

/-- Model of `MerkleTree.insert(leaf)` (src/unnamed/part_004 lines 162-208) on
an initialized tree: append the leaf, run the per-level loop for `levels`
levels, store the resulting root, and return the index of the inserted leaf.
The source contains no capacity check and no failure path besides the
"not initialized" guard. -/
def MerkleTree.insert (t : MerkleTree) (mimc : Perm) (leaf : Nat) : MerkleTree × Nat :=
  let index := t.leaves.length
  let leaves' := t.leaves ++ [leaf]
  let res := insertGo mimc t.zeros leaves'.length t.levels 0 index leaf t.filledSubTrees
  ({ t with leaves := leaves', filledSubTrees := res.2, root := res.1 }, index)

/-- Inserting a list of leaves one by one via `MerkleTree.insert`. -/
def insertList (mimc : Perm) (t : MerkleTree) (ls : List Nat) : MerkleTree :=
  ls.foldl (fun s l => (s.insert mimc l).1) t

/-- Result record of `MerkleTree.generateProof`:
`{root, pathElements, pathIndices, leaf}`. -/
structure TreeProof where
  root : Nat
  pathElements : List Nat
  pathIndices : List Nat
  leaf : Nat
deriving DecidableEq

/-- Model of `MerkleTree.generateProof(index)` (src/unnamed/part_004 lines
215-234): bounds-check the index, then delegate to
`calculateMerkleRootAndPath` over the stored leaves with
`element = leaves[index]`. -/
def MerkleTree.generateProof (t : MerkleTree) (mimc : Perm) (index : Nat) :
    Except String TreeProof :=
  if t.leaves.length ≤ index then .error "Leaf index out of bounds"
  else
    let element := t.leaves.getD index 0
    match calculateMerkleRootAndPath mimc t.levels t.leaves (some element) with
    | .error s => .error s
    | .ok pr => .ok ⟨pr.root, pr.pathElements, pr.pathIndices, element⟩

/-- Recombination loop of `checkMerkleProof` (src/unnamed/part_006 lines
99-116): fold the element through the `levels` in-range
`(pathElements[i], pathIndices[i])` pairs, hashing `(current, sibling)` when
the bit is 0 and `(sibling, current)` otherwise. -/
def checkGo (mimc : Perm) (pes pis : List Nat) : Nat → Nat → Nat → Nat
  | 0, _, cur => cur
  | fuel + 1, i, cur =>
    let pe := pes.getD i 0
    let cur' := if pis.getD i 0 = 0 then calculateHash mimc cur pe
                else calculateHash mimc pe cur
    checkGo mimc pes pis fuel (i + 1) cur'

/-- Model of `checkMerkleProof(mimc, levels, pathElements, pathIndices,
element)` (src/unnamed/part_006 lines 99-116) for paths of length `levels`. -/
def checkMerkleProof (mimc : Perm) (levels : Nat) (pathElements pathIndices : List Nat)
    (element : Nat) : Nat :=
  checkGo mimc pathElements pathIndices levels 0 element

/-- Comparator used by `initializeMerkleTree` to sort the Commit events:
`(a, b) => Number(a.args.leafIndex) - Number(b.args.leafIndex)`
(src/unnamed/part_004 lines 277-279).  An event is modelled as the pair
`(commitment, leafIndex)`. -/
def eventLe (a b : Nat × Nat) : Prop := a.2 ≤ b.2

instance : DecidableRel eventLe := fun a b => Nat.decLe a.2 b.2

instance : IsTotal (Nat × Nat) eventLe := ⟨fun a b => Nat.le_total a.2 b.2⟩

instance : IsTrans (Nat × Nat) eventLe := ⟨fun _ _ _ h h' => Nat.le_trans h h'⟩

/-- Model of the tree-rebuilding core of `initializeMerkleTree(contract)`
(src/unnamed/part_004 lines 244-343): create a fresh initialized tree, sort
the retrieved Commit events by `leafIndex`, and replay `insert` for each
commitment in that order.  The contract query, the `localStorage` caching of
`contractRoot` and the debug logging have no effect on the resulting tree and
are not part of the returned state; JavaScript's `Array.prototype.sort` is
stable and is modelled by insertion sort on the same comparator. -/
def initializeMerkleTree (mimc : Perm) (levels : Nat) (events : List (Nat × Nat)) :
    MerkleTree :=
  (List.insertionSort eventLe events).foldl
    (fun t e => (t.insert mimc e.1).1) (MerkleTree.init mimc levels)

/-- Leaf-index validation block of the module-level `generateMerkleProof`
(src/unnamed/part_004 lines 356-393): `vc` is the commitment stored in
`localStorage.voterSecrets` (after `formatForComparison`, which is the
identity on canonical decimal BigInt strings), if any.  The index is invalid
when it is out of bounds or when the leaf there differs from the voter's
commitment; in that case the commitment is searched for in the leaves,
otherwise an error is thrown. -/
def resolveLeafIndex (t : MerkleTree) (vc : Option Nat) (leafIndex : Nat) :
    Except String Nat :=
  let invalid : Bool :=
    decide (t.leaves.length ≤ leafIndex) ||
      (match vc with
       | some c => t.leaves.getD leafIndex 0 != c
       | none => false)
  if invalid then
    match vc with
    | some c =>
      match findIndex (· == c) t.leaves with
      | some foundIndex => .ok foundIndex
      | none => .error "Commitment not found in the Merkle tree"
    | none => .error "Leaf index out of bounds and no commitment found in localStorage"
  else .ok leafIndex

/-- Model of the module-level `generateMerkleProof(leafIndex)`
(src/unnamed/part_004 lines 350-414) on an initialized singleton tree `t`:
resolve the leaf index, call `treeInstance.generateProof`, and, when a
`contractRoot` value was cached in `localStorage` during
`initializeMerkleTree` (parameter `cr`), overwrite the proof's `root` field
with it before returning.  The negative-index guard is vacuous for `Nat`. -/
def generateMerkleProof (mimc : Perm) (t : MerkleTree) (vc cr : Option Nat)
    (leafIndex : Nat) : Except String TreeProof :=
  match resolveLeafIndex t vc leafIndex with
  | .error s => .error s
  | .ok i =>
    match t.generateProof mimc i with
    | .error s => .error s
    | .ok pf =>
      match cr with
      | some r => .ok { pf with root := r }
      | none => .ok pf

/-- Model of `registerCommitment(commitment)` (src/unnamed/part_004 lines
421-454) on an initialized singleton tree: format the commitment
(`formatForComparison` is the identity on canonical decimal values, so it is
dropped), return the index of an existing equal leaf without touching the
tree, and otherwise insert.  The `localStorage` bookkeeping of
`voterLeafIndex` does not affect the tree state. -/
def registerCommitment (mimc : Perm) (t : MerkleTree) (commitment : Nat) :
    MerkleTree × Nat :=
  match findIndex (· == commitment) t.leaves with
  | some existingIndex => (t, existingIndex)
  | none => t.insert mimc commitment

/-- The `proof` object returned by the external `groth16.fullProve` call
inside `calculateMerkleRootAndZKProof`. -/
structure SnarkProof where
  pi_a : List Nat
  pi_b : List (List Nat)
  pi_c : List Nat
deriving DecidableEq

/-- The `proofForContract` record built by `calculateMerkleRootAndZKProof`. -/
structure ProofForContract where
  a : List Nat
  b : List (List Nat)
  c : List Nat
  nullifierHash : Nat
  root : Nat
deriving DecidableEq

/-- Model of `calculateMerkleRootAndZKProof(nullifier, secret, merkleProof)`
(src/client/src/utils/zkProofs.js lines 125-197) downstream of the external
prover: `merkleRoot` is `merkleProof.root` (`none` when the proof object or
its root is missing, which throws), and `(pf, publicSignals)` is what
`fullProve` returned.  The function throws when `publicSignals.length !== 2`
and otherwise packages the proof with `nullifierHash = publicSignals[0]` and
`root = publicSignals[1]`; a root mismatch with `merkleProof.root` only warns
and does not change the result. -/
def calculateMerkleRootAndZKProof (merkleRoot : Option Nat) (pf : SnarkProof)
    (publicSignals : List Nat) : Except String ProofForContract :=
  match merkleRoot with
  | none => .error "Merkle proof is invalid or missing root"
  | some _ =>
    if publicSignals.length ≠ 2 then
      .error "Proof generated invalid number of public signals"
    else
      .ok { a := [pf.pi_a.getD 0 0, pf.pi_a.getD 1 0],
            b := [[(pf.pi_b.getD 0 []).getD 1 0, (pf.pi_b.getD 0 []).getD 0 0],
                  [(pf.pi_b.getD 1 []).getD 1 0, (pf.pi_b.getD 1 []).getD 0 0]],
            c := [pf.pi_c.getD 0 0, pf.pi_c.getD 1 0],
            nullifierHash := publicSignals.getD 0 0,
            root := publicSignals.getD 1 0 }

/-- Executable statement of the C2 property at a given tree and index: the
proof returned by `generateProof` recombines (via `checkMerkleProof`) to the
tree's incrementally maintained `root` field. -/
def proofRecombinesToTreeRoot (mimc : Perm) (t : MerkleTree) (index : Nat) : Bool :=
  match t.generateProof mimc index with
  | .ok pf => checkMerkleProof mimc t.levels pf.pathElements pf.pathIndices pf.leaf == t.root
  | .error _ => false

/-- Executable statement of the recombination property for the module-level
`generateMerkleProof`: the returned proof's `root` field is reproduced by
folding its `leaf` through its path with `checkMerkleProof`. -/
def generatedProofRecombines (mimc : Perm) (t : MerkleTree) (vc cr : Option Nat)
    (leafIndex : Nat) : Bool :=
  match generateMerkleProof mimc t vc cr leafIndex with
  | .ok pf => checkMerkleProof mimc t.levels pf.pathElements pf.pathIndices pf.leaf == pf.root
  | .error _ => false

/-! Helper lemmas -/

theorem layersUpTo_nil (mimc : Perm) : ∀ l, layersUpTo mimc [] l = []
  | 0 => rfl
  | l + 1 => by rw [layersUpTo, layersUpTo_nil mimc l]; rfl

theorem generateZeros_getD (mimc : Perm) {levels i : Nat} (h : i ≤ levels) :
    (generateZeros mimc levels).getD i 0 = zeroAt mimc i := by
  have hlen : i < ((List.range (levels + 1)).map (zeroAt mimc)).length := by
    simpa using Nat.lt_succ_of_le h
  rw [generateZeros, List.getD_eq_getElem _ _ hlen]
  simp

/-! Theorems for the claims -/

/-- C7: a freshly initialized accumulator has root `Z[levels]`, the top of the
zero ladder, and `calculateMerkleRootAndPath` over the empty leaf list
returns the same value (with empty path lists). -/
theorem empty_tree_root_eq_zero_ladder (mimc : Perm) (levels : Nat) :
    (MerkleTree.init mimc levels).root = zeroAt mimc levels ∧
    calculateMerkleRootAndPath mimc levels [] none = .ok ⟨zeroAt mimc levels, [], []⟩ := by
  constructor
  · simpa [MerkleTree.init] using generateZeros_getD mimc (Nat.le_refl levels)
  · simp [calculateMerkleRootAndPath, layersUpTo_nil]

/-- C5: on in-range field elements, `calculateHash` from the source computes
exactly the two-step sponge of spec §4.1 — initialize `(R, C) = (left, 0)`,
permute, add `right` into `R` mod `P`, permute again, return the `R`
component. -/
theorem calculateHash_eq_hash2Spec (mimc : Perm) (left right : Nat)
    (hl : left < P) (hr : right < P) :
    calculateHash mimc left right = hash2Spec mimc left right := by
  simp only [calculateHash, hash2Spec]
  rw [Nat.mod_eq_of_lt hl, Nat.mod_eq_of_lt hr]

/-- Witness for the C5 theorem at concrete in-range inputs. -/
theorem calculateHash_eq_hash2Spec_witness :
    (1 : Nat) < P ∧ (2 : Nat) < P ∧ calculateHash permId 1 2 = hash2Spec permId 1 2 :=
  ⟨by decide, by decide, calculateHash_eq_hash2Spec permId 1 2 (by decide) (by decide)⟩

/-- C4 counterexample: on an input that is at least the modulus `P`, the
source `calculateHash` does not fail; it silently reduces the input modulo
`P` (here `P + 5` hashes exactly like `5`), contradicting the claim that
out-of-range inputs fail fast with a `FieldRangeError`. -/
theorem calculateHash_out_of_range_reduces :
    P ≤ P + 5 ∧ calculateHash permId (P + 5) 3 = calculateHash permId 5 3 :=
  ⟨Nat.le_add_right P 5, by decide⟩

/-- C4 amended: `calculateHash` performs no range validation at all; for every
permutation and all inputs, it returns the hash of the inputs reduced modulo
`P` (the reduction performed by the field conversion `mimc.F.e`). -/
theorem calculateHash_reduces_mod_P (mimc : Perm) (left right : Nat) :
    calculateHash mimc left right = calculateHash mimc (left % P) (right % P) := by
  simp only [calculateHash]
  rw [Nat.mod_mod_of_dvd left (dvd_refl P), Nat.mod_mod_of_dvd right (dvd_refl P)]

/-- C1 (code bug): after inserting the leaves `[1, 2]` one by one into a
freshly initialized tree of depth 2, the incrementally maintained `root`
differs from the root computed from scratch over the same leaves by
`calculateMerkleRootAndPath` (evaluated here with the concrete permutation
`permId`) — the insert loop never records an even-index leaf in
`filledSubTrees[0]`, so the next odd-index insert hashes against the stale
zero value and the first leaf's contribution is lost. -/
theorem incremental_root_ne_scratch_root :
    (calculateMerkleRootAndPath permId 2 [1, 2] none).map PathResult.root ≠
      Except.ok (insertList permId (MerkleTree.init permId 2) [1, 2]).root := by
  decide

/-- C2 (code bug): on the depth-2 tree holding the inserted leaves `[1, 2]`,
`generateProof 0` succeeds, but folding its leaf through its
`(pathElements, pathIndices)` pairs with `checkMerkleProof` does NOT
reproduce the tree's incrementally maintained `root` field — the
recombination yields the from-scratch root, which the buggy insert loop has
diverged from. -/
theorem generateProof_not_recombining_to_tree_root :
    ((insertList permId (MerkleTree.init permId 2) [1, 2]).generateProof permId 0).isOk
      = true ∧
    proofRecombinesToTreeRoot permId (insertList permId (MerkleTree.init permId 2) [1, 2]) 0
      = false := by
  decide

/-- C3 (code bug): a depth-1 tree already holding `2^1 = 2` leaves accepts a
third `insert` without any failure: the call returns index `2` and appends
the leaf, silently wrapping past capacity; only the from-scratch
`calculateMerkleRootAndPath` enforces capacity by throwing "Tree is full" on
the same leaf multiset. -/
theorem insert_beyond_capacity_succeeds :
    ((insertList permId (MerkleTree.init permId 1) [1, 2]).insert permId 3).2 = 2 ∧
    ((insertList permId (MerkleTree.init permId 1) [1, 2]).insert permId 3).1.leaves
      = [1, 2, 3] ∧
    calculateMerkleRootAndPath permId 1 [1, 2, 3] none = .error "Tree is full" := by
  decide

/-- Two lists of events that are permutations of each other, both sorted by
leaf index, and whose leaf indices are pairwise distinct, are equal. -/
theorem sorted_eq_of_perm_of_nodup_keys :
    ∀ {l₁ l₂ : List (Nat × Nat)}, l₁.Perm l₂ → l₁.Sorted eventLe → l₂.Sorted eventLe →
      (l₁.map Prod.snd).Nodup → l₁ = l₂ := by
  intro l₁
  induction l₁ with
  | nil =>
    intro l₂ hp _ _ _
    exact (List.Perm.eq_nil hp.symm).symm
  | cons a t₁ ih =>
    intro l₂ hp hs₁ hs₂ hnd
    cases l₂ with
    | nil => exact absurd (List.Perm.eq_nil hp) (by simp)
    | cons b t₂ =>
      have hab : a = b := by
        by_contra hne
        have ha₂ : a ∈ t₂ := by
          rcases List.mem_cons.mp (hp.subset (List.mem_cons_self a t₁)) with h | h
          · exact absurd h hne
          · exact h
        have hb₁ : b ∈ t₁ := by
          rcases List.mem_cons.mp (hp.symm.subset (List.mem_cons_self b t₂)) with h | h
          · exact absurd h.symm hne
          · exact h
        have h1 : eventLe a b := List.rel_of_sorted_cons hs₁ b hb₁
        have h2 : eventLe b a := List.rel_of_sorted_cons hs₂ a ha₂
        have hkey : b.2 = a.2 := Nat.le_antisymm h2 h1
        have hin : a.2 ∈ t₁.map Prod.snd := List.mem_map.mpr ⟨b, hb₁, hkey⟩
        have hnotin : a.2 ∉ t₁.map Prod.snd := by
          simp only [List.map_cons, List.nodup_cons] at hnd
          exact hnd.1
        exact hnotin hin
      subst hab
      have htail : t₁ = t₂ := by
        apply ih hp.cons_inv hs₁.of_cons hs₂.of_cons
        simp only [List.map_cons, List.nodup_cons] at hnd
        exact hnd.2
      rw [htail]

/-- C6: the event-replay mirror is delivery-order independent — for every two
event logs that are permutations of each other with pairwise distinct leaf
indices, `initializeMerkleTree` rebuilds exactly the same tree state (it
sorts the events by leaf index and replays `insert` in index order into a
fresh tree, and sorting makes the order of delivery irrelevant); in
particular the rebuilt root equals the root of the accumulator
`initializeMerkleTree mimc levels es`, which performs the same inserts in
index order. -/
theorem rebuild_order_independent (mimc : Perm) (levels : Nat)
    (es es' : List (Nat × Nat)) (hperm : es.Perm es')
    (hnodup : (es.map Prod.snd).Nodup) :
    initializeMerkleTree mimc levels es' = initializeMerkleTree mimc levels es := by
  unfold initializeMerkleTree
  have hsort : List.insertionSort eventLe es' = List.insertionSort eventLe es := by
    apply sorted_eq_of_perm_of_nodup_keys
    · exact (List.perm_insertionSort eventLe es').trans
        (hperm.symm.trans (List.perm_insertionSort eventLe es).symm)
    · exact List.sorted_insertionSort eventLe es'
    · exact List.sorted_insertionSort eventLe es
    · have hp2 : List.Perm ((List.insertionSort eventLe es').map Prod.snd)
          (es.map Prod.snd) :=
        ((List.perm_insertionSort eventLe es').trans hperm.symm).map Prod.snd
      exact hp2.symm.nodup hnodup
  rw [hsort]

/-- Witness for the C6 theorem: swapping the delivery order of two events
with distinct leaf indices leaves the rebuilt tree unchanged. -/
theorem rebuild_order_independent_witness :
    ([((10 : Nat), (1 : Nat)), (20, 0)]).Perm [(20, 0), (10, 1)] ∧
    (([((10 : Nat), (1 : Nat)), (20, 0)]).map Prod.snd).Nodup ∧
    initializeMerkleTree permId 2 [(20, 0), (10, 1)] =
      initializeMerkleTree permId 2 [(10, 1), (20, 0)] :=
  ⟨List.Perm.swap (20, 0) (10, 1) [], by decide,
   rebuild_order_independent permId 2 [(10, 1), (20, 0)] [(20, 0), (10, 1)]
     (List.Perm.swap (20, 0) (10, 1) []) (by decide)⟩

/-- C8: downstream of the external prover, `calculateMerkleRootAndZKProof`
rejects every `publicSignals` array whose length is not exactly 2, and
whenever it succeeds, the returned object's `nullifierHash` field is
`publicSignals[0]` and its `root` field is `publicSignals[1]`. -/
theorem zkProof_publicSignals_contract (mroot : Nat) (pf : SnarkProof) (ps : List Nat) :
    (ps.length ≠ 2 → calculateMerkleRootAndZKProof (some mroot) pf ps =
        .error "Proof generated invalid number of public signals") ∧
    (∀ res, calculateMerkleRootAndZKProof (some mroot) pf ps = .ok res →
        res.nullifierHash = ps.getD 0 0 ∧ res.root = ps.getD 1 0) := by
  constructor
  · intro h
    simp [calculateMerkleRootAndZKProof, h]
  · intro res h
    by_cases hl : ps.length = 2
    · simp only [calculateMerkleRootAndZKProof, hl, ne_eq, not_true_eq_false,
        if_false, Except.ok.injEq] at h
      subst h
      exact ⟨rfl, rfl⟩
    · simp [calculateMerkleRootAndZKProof, hl] at h

/-- Witness for the C8 theorem: a 1-element signal array is rejected, and on
a 2-element array `[3, 9]` the packaged proof carries `nullifierHash = 3` and
`root = 9`. -/
theorem zkProof_publicSignals_contract_witness :
    (([(7 : Nat)]).length ≠ 2 ∧
      calculateMerkleRootAndZKProof (some 1) ⟨[], [], []⟩ [7] =
        .error "Proof generated invalid number of public signals") ∧
    ((⟨[0, 0], [[0, 0], [0, 0]], [0, 0], 3, 9⟩ : ProofForContract).nullifierHash
        = [(3 : Nat), 9].getD 0 0 ∧
      (⟨[0, 0], [[0, 0], [0, 0]], [0, 0], 3, 9⟩ : ProofForContract).root
        = [(3 : Nat), 9].getD 1 0) :=
  ⟨⟨by decide, (zkProof_publicSignals_contract 1 ⟨[], [], []⟩ [7]).1 (by decide)⟩,
   (zkProof_publicSignals_contract 1 ⟨[], [], []⟩ [3, 9]).2
     ⟨[0, 0], [[0, 0], [0, 0]], [0, 0], 3, 9⟩ (by decide)⟩

/-- C9: whenever a `contractRoot` value was cached (parameter `cr = some r`),
every successful call to the module-level `generateMerkleProof` returns a
proof whose `root` field is that cached contract root rather than the root
computed from the local tree's leaves; consequently (second conjunct,
evaluated on a concrete tree) the returned root can differ from the value
obtained by recombining the returned path with the leaf. -/
theorem generateMerkleProof_root_overridden :
    (∀ (mimc : Perm) (t : MerkleTree) (vc : Option Nat) (r leafIndex : Nat)
        (pf : TreeProof),
        generateMerkleProof mimc t vc (some r) leafIndex = .ok pf → pf.root = r) ∧
    ((generateMerkleProof permId (insertList permId (MerkleTree.init permId 2) [1, 2])
          none (some 999) 0).isOk = true ∧
      generatedProofRecombines permId (insertList permId (MerkleTree.init permId 2) [1, 2])
          none (some 999) 0 = false) := by
  constructor
  · intro mimc t vc r leafIndex pf h
    unfold generateMerkleProof at h
    cases h1 : resolveLeafIndex t vc leafIndex with
    | error s => simp [h1] at h
    | ok i =>
      simp only [h1] at h
      cases h2 : t.generateProof mimc i with
      | error s => simp [h2] at h
      | ok pf' =>
        simp only [h2] at h
        cases h
        rfl
  · exact ⟨by decide, by decide⟩

/-- Witness for the C9 theorem: on a depth-1 tree holding the single leaf 5,
with cached contract root 42, the returned proof's root field is 42. -/
theorem generateMerkleProof_root_overridden_witness :
    generateMerkleProof permId (insertList permId (MerkleTree.init permId 1) [5])
        none (some 42) 0 = .ok ⟨42, [ZERO_VALUE], [0], 5⟩ ∧
    (⟨42, [ZERO_VALUE], [0], 5⟩ : TreeProof).root = 42 :=
  ⟨by decide,
   generateMerkleProof_root_overridden.1 permId
     (insertList permId (MerkleTree.init permId 1) [5]) none 42 0
     ⟨42, [ZERO_VALUE], [0], 5⟩ (by decide)⟩

/-- A member of a list is found by `findIndex` at an in-range position
holding that member. -/
theorem findIndex_of_mem :
    ∀ {l : List Nat} {c : Nat}, c ∈ l →
      ∃ i, findIndex (· == c) l = some i ∧ i < l.length ∧ l.getD i 0 = c := by
  intro l
  induction l with
  | nil => intro c h; cases h
  | cons a t ih =>
    intro c h
    by_cases hac : a = c
    · exact ⟨0, by simp [findIndex, hac], by simp, by simp [hac]⟩
    · have hct : c ∈ t := by
        rcases List.mem_cons.mp h with h' | h'
        · exact absurd h'.symm hac
        · exact h'
      obtain ⟨i, hf, hlt, hget⟩ := ih hct
      refine ⟨i + 1, ?_, by simpa using Nat.succ_lt_succ hlt, by simpa using hget⟩
      simp [findIndex, hac, hf]

/-- C10: `registerCommitment` is idempotent on duplicate commitments — if the
commitment is already among the tree's leaves, the call returns the index of
the existing leaf (the leaf at the returned index is the commitment) and the
tree state is completely unchanged. -/
theorem registerCommitment_idempotent (mimc : Perm) (t : MerkleTree) (c : Nat)
    (hmem : c ∈ t.leaves) :
    (registerCommitment mimc t c).1 = t ∧
    (registerCommitment mimc t c).2 < t.leaves.length ∧
    t.leaves.getD (registerCommitment mimc t c).2 0 = c := by
  obtain ⟨i, hf, hlt, hget⟩ := findIndex_of_mem hmem
  refine ⟨?_, ?_, ?_⟩
  · simp [registerCommitment, hf]
  · simpa [registerCommitment, hf] using hlt
  · simpa [registerCommitment, hf, hlt] using hget

/-- Witness for the C10 theorem: registering the already-present commitment 2
on the tree holding `[1, 2]` returns index 1 and leaves the tree unchanged. -/
theorem registerCommitment_idempotent_witness :
    (2 : Nat) ∈ (insertList permId (MerkleTree.init permId 2) [1, 2]).leaves ∧
    ((registerCommitment permId (insertList permId (MerkleTree.init permId 2) [1, 2]) 2).1
        = insertList permId (MerkleTree.init permId 2) [1, 2] ∧
      (registerCommitment permId (insertList permId (MerkleTree.init permId 2) [1, 2]) 2).2
        < (insertList permId (MerkleTree.init permId 2) [1, 2]).leaves.length ∧
      (insertList permId (MerkleTree.init permId 2) [1, 2]).leaves.getD
        (registerCommitment permId (insertList permId (MerkleTree.init permId 2) [1, 2]) 2).2 0
        = 2) :=
  ⟨by decide,
   registerCommitment_idempotent permId (insertList permId (MerkleTree.init permId 2) [1, 2])
     2 (by decide)⟩

end ZkVoting
